import Mathlib

/-!
Shallow embedding of the qimg image codec (src/qimg.mjs): boxed two-tone
quantization and its binary container format. Machine numbers are modelled
as Nat with explicit truncation where the source truncates; the JS
floating-point luminance computation is modelled over the reals; the JS NaN
produced by a zero-by-zero division is modelled as the none case of an
Option. Fallible operations return Except values.
-/

namespace Qimg

/-- RGB color with natural number channels, as read from an RGBA buffer. -/
@[ext]
structure Color where
  r : Nat
  g : Nat
  b : Nat
deriving Repr, DecidableEq

/-- Grid or image dimensions. -/
@[ext]
structure Size where
  width : Nat
  height : Nat
deriving Repr, DecidableEq

/-- A pixel of a Box: local coordinates plus color (alpha dropped). -/
@[ext]
structure Pixel where
  x : Nat
  y : Nat
  color : Color
deriving Repr, DecidableEq

/-- A tile of the image: tile-grid coordinates and row-major pixels. -/
@[ext]
structure Box where
  x : Nat
  y : Nat
  data : List Pixel
deriving Repr, DecidableEq

/-- Output of the boxifier: tile-grid size, tile edge length, tiles. -/
@[ext]
structure BoxedImage where
  size : Size
  boxSize : Nat
  data : List Box
deriving Repr, DecidableEq

/-- A packed pixel: local coordinates plus a palette index. -/
@[ext]
structure PkPixel where
  x : Nat
  y : Nat
  index : Nat
deriving Repr, DecidableEq

/-- A packed box as it appears on the wire: coordinates, the two
representative colors, and the per-pixel palette indices. -/
@[ext]
structure PackedBox where
  x : Nat
  y : Nat
  light : Color
  dark : Color
  data : List PkPixel
deriving Repr, DecidableEq

/-- A packed image: grid size, tile edge length, packed boxes. -/
@[ext]
structure PackedImage where
  size : Size
  boxSize : Nat
  data : List PackedBox
deriving Repr, DecidableEq

/-- Direct output of the packer. The representative colors are Options:
none models the NaN that the source produces when a partition is empty
(Math.floor of a zero-by-zero division). -/
@[ext]
structure QBox where
  x : Nat
  y : Nat
  light : Option Color
  dark : Option Color
  data : List PkPixel
deriving Repr, DecidableEq

/-- Packer output image. -/
@[ext]
structure QImage where
  size : Size
  boxSize : Nat
  data : List QBox
deriving Repr, DecidableEq

/-- A raster image: dimensions and a row-major RGBA byte buffer. -/
@[ext]
structure RasterImage where
  width : Nat
  height : Nat
  data : List Nat
deriving Repr, DecidableEq

/-- Output raster of the unpacker (the source builds a pureimage Bitmap:
only width, height and the RGBA buffer are relevant). -/
@[ext]
structure Bitmap where
  width : Nat
  height : Nat
  data : List Nat
deriving Repr, DecidableEq

/-- Error taxonomy of the core operations. In the source every failure is a
console.error followed by process.exit, so no partial output is produced;
the embedding models this as an Except error result. -/
inductive QimgError where
  | invalidParameter
  | fieldOverflow
  | formatError
deriving Repr, DecidableEq

/-- The 8 magic bytes, ASCII csq/qimg. -/
def MAGIC : List Nat := [99, 115, 113, 47, 113, 105, 109, 103]

/-! ### Boxifier -/

/-- One pixel of a tile, read from the RGBA buffer exactly as the source
does: index = (yStart + y) * image.width + (xStart + x), channels at
index * 4 + 0, 1, 2. Reads outside the buffer (JS undefined) default to 0;
no claim exercises them. -/
def boxPixel (image : RasterImage) (xStart yStart x y : Nat) : Pixel :=
  let realY := yStart + y
  let realX := xStart + x
  let index := realY * image.width + realX
  { x := x
    y := y
    color :=
      { r := image.data.getD (index * 4) 0
        g := image.data.getD (index * 4 + 1) 0
        b := image.data.getD (index * 4 + 2) 0 } }

/-- The boxifier. The source iterates yStart over multiples of boxSize
below the cropped height; here the loop variables are divided through by
boxSize (gy = yStart / boxSize), which enumerates exactly the same tiles
in the same row-major order. -/
def boxify (image : RasterImage) (boxSize : Nat) : BoxedImage :=
  let croppedWidth := image.width - image.width % boxSize
  let croppedHeight := image.height - image.height % boxSize
  let gridWidth := croppedWidth / boxSize
  let gridHeight := croppedHeight / boxSize
  let data := (List.range gridHeight).flatMap fun gy =>
    (List.range gridWidth).map fun gx =>
      { x := gx
        y := gy
        data := (List.range boxSize).flatMap fun y =>
          (List.range boxSize).map fun x =>
            boxPixel image (gx * boxSize) (gy * boxSize) x y }
  { size := { width := gridWidth, height := gridHeight }
    boxSize := boxSize
    data := data }

/-! ### Packer -/

/-- Perceptual luminance of a color, normalized to the unit interval:
sqrt(0.241 r^2 + 0.691 g^2 + 0.068 b^2) / 255. The JS double arithmetic is
modelled over the reals with exact rational coefficients. -/
noncomputable def getLuminance (c : Color) : ℝ :=
  Real.sqrt (0.241 * ((c.r : ℝ) * c.r) + 0.691 * ((c.g : ℝ) * c.g)
    + 0.068 * ((c.b : ℝ) * c.b)) / 255

/-- Arithmetic mean luminance of a box. -/
noncomputable def boxAverageLuminance (b : Box) : ℝ :=
  (b.data.map fun p => getLuminance p.color).sum / b.data.length

/-- Mean color of a partition, each channel the floor of sum over count.
For an empty partition the source divides zero by zero and Math.floor
turns that NaN into NaN; this is modelled as none. -/
def meanColor (pixels : List Pixel) : Option Color :=
  if pixels.length = 0 then none
  else some
    { r := (pixels.map fun p => p.color.r).sum / pixels.length
      g := (pixels.map fun p => p.color.g).sum / pixels.length
      b := (pixels.map fun p => p.color.b).sum / pixels.length }

/-- Pack one box: classify each pixel against the mean luminance of the
box (light when luminance >= average, dark otherwise), take the mean color
of each partition, and replace each pixel by its palette index. -/
noncomputable def packBox (b : Box) : QBox :=
  let avg := boxAverageLuminance b
  let lightPixels := b.data.filter fun p => decide (avg ≤ getLuminance p.color)
  let darkPixels := b.data.filter fun p => !decide (avg ≤ getLuminance p.color)
  { x := b.x
    y := b.y
    light := meanColor lightPixels
    dark := meanColor darkPixels
    data := b.data.map fun p =>
      { x := p.x
        y := p.y
        index := if avg ≤ getLuminance p.color then 1 else 0 } }

/-- The packer: every box is processed independently. -/
noncomputable def pack (bi : BoxedImage) : QImage :=
  { size := bi.size, boxSize := bi.boxSize, data := bi.data.map packBox }

/-! ### Unpacker -/

/-- One write of the unpacker inner loop: resolve the color from the
palette index (dark when index is 0, light otherwise) and store R, G, B
and a full alpha at the absolute position of the pixel. -/
def writePixel (width boxSize : Nat) (box : PackedBox) (d : List Nat)
    (px : PkPixel) : List Nat :=
  let x := box.x * boxSize + px.x
  let y := box.y * boxSize + px.y
  let realY := width * y
  let index := (realY + x) * 4
  let color := if px.index == 0 then box.dark else box.light
  ((((d.set index color.r).set (index + 1) color.g).set
    (index + 2) color.b).set (index + 3) 255)

/-- The unpacker: an RGBA buffer of the full-resolution size, every byte 0
except alpha bytes which start at 255, then every box writes its pixels. -/
def unpack (p : PackedImage) : Bitmap :=
  let width := p.size.width * p.boxSize
  let height := p.size.height * p.boxSize
  let initialData := (List.range (width * height * 4)).map fun i =>
    if i % 4 == 3 then 255 else 0
  let finalData := p.data.foldl
    (fun d box => box.data.foldl (writePixel width p.boxSize box) d)
    initialData
  { width := width, height := height, data := finalData }

/-! ### Serializer -/

/-- The three box-count bytes, written exactly as the source does with
mask and shift. On JS numbers the bitwise operators act on the 32-bit
truncation; for indices below bit 24 the extracted bits agree with the
untruncated Nat operations used here. -/
def dataLengthBytes (n : Nat) : List Nat :=
  [(n &&& (0xFF <<< 16)) >>> 16, (n &&& (0xFF <<< 8)) >>> 8, n &&& 0xFF]

/-- The record of one box: x, y, light RGB, dark RGB, then the palette
index bytes in the stored pixel order. -/
def serialiseBox (box : PackedBox) : List Nat :=
  [box.x, box.y, box.light.r, box.light.g, box.light.b,
    box.dark.r, box.dark.g, box.dark.b]
    ++ box.data.map fun px => px.index

/-- All bytes the serializer pushes, before the Uint8Array conversion. -/
def serialiseBytes (p : PackedImage) : List Nat :=
  MAGIC ++ [0, 1] ++ [p.boxSize, p.size.width, p.size.height]
    ++ dataLengthBytes p.data.length
    ++ (p.data.map serialiseBox).flatten

/-- The serializer. The source pushes the magic and version, then checks
the single-byte fields and exits without returning on overflow (modelled
as an error with no output), then pushes the remaining bytes and converts
the array with Uint8Array.from, which truncates every entry mod 256. -/
def serialiseFromPacked (p : PackedImage) : Except QimgError (List Nat) :=
  if 255 < p.boxSize ∨ 255 < p.size.width ∨ 255 < p.size.height then
    Except.error QimgError.fieldOverflow
  else
    Except.ok ((serialiseBytes p).map fun b => b % 256)

/-! ### Deserializer -/

/-- The magic check of the source: magic.every over the first (up to 8)
bytes, comparing each to the corresponding MAGIC byte. -/
def magicMatches (m : List Nat) : Bool :=
  (List.range m.length).all fun i => m.getD i 0 == MAGIC.getD i 0

/-- Rebuild the pixel list of one box from its index bytes; local
coordinates are regenerated in row-major order. -/
def parsePixels (pixelBytes : List Nat) (boxSize : Nat) : List PkPixel :=
  (List.range boxSize).flatMap fun y =>
    (List.range boxSize).map fun x =>
      { x := x, y := y, index := pixelBytes.getD (y * boxSize + x) 0 }

/-- Parse one box record. -/
def parseBox (boxBytes : List Nat) (boxSize : Nat) : PackedBox :=
  let pixelBytes := boxBytes.drop 8
  { x := boxBytes.getD 0 0
    y := boxBytes.getD 1 0
    light :=
      { r := boxBytes.getD 2 0, g := boxBytes.getD 3 0, b := boxBytes.getD 4 0 }
    dark :=
      { r := boxBytes.getD 5 0, g := boxBytes.getD 6 0, b := boxBytes.getD 7 0 }
    data := parsePixels pixelBytes boxSize }

/-- The deserializer: validate the magic bytes (the version bytes are only
logged), read the header fields, then slice boxCount records of
8 + boxSize^2 bytes each from the remaining bytes. Reads past the end of
the input (JS undefined) default to 0; no claim exercises them. -/
def deserialiseIntoPacked (bytes : List Nat) : Except QimgError PackedImage :=
  let header := bytes.take 16
  let magic := header.take 8
  if magicMatches magic then
    let boxSize := header.getD 10 0
    let width := header.getD 11 0
    let height := header.getD 12 0
    let dataLength := ((header.getD 13 0) <<< 16) ||| ((header.getD 14 0) <<< 8)
      ||| header.getD 15 0
    let rest := bytes.drop 16
    let boxBytesSize := 2 + 3 + 3 + boxSize ^ 2
    let data := (List.range dataLength).map fun i =>
      parseBox ((rest.drop (boxBytesSize * i)).take boxBytesSize) boxSize
    Except.ok { size := { width := width, height := height }
                boxSize := boxSize
                data := data }
  else
    Except.error QimgError.formatError

/-- The only guard on the box size in the source, in the compress driver:
a JS falsiness test (!boxSize), which for an integer box size is true
exactly at 0. -/
def compressBoxSizeGuard (boxSize : Int) : Option QimgError :=
  if boxSize = 0 then some QimgError.invalidParameter else none

/-! ### Default elements and well-formedness predicates -/

/-- Default pixel used with List.getD. -/
def defaultPixel : Pixel := { x := 0, y := 0, color := { r := 0, g := 0, b := 0 } }

/-- Default packed pixel used with List.getD. -/
def defaultPkPixel : PkPixel := { x := 0, y := 0, index := 0 }

/-- Default box used with List.getD. -/
def defaultBox : Box := { x := 0, y := 0, data := [] }

/-- Default packer output box used with List.getD. -/
def defaultQBox : QBox := { x := 0, y := 0, light := none, dark := none, data := [] }

/-- Default wire box used with List.getD. -/
def defaultPackedBox : PackedBox :=
  { x := 0, y := 0, light := { r := 0, g := 0, b := 0 }
    dark := { r := 0, g := 0, b := 0 }, data := [] }

/-- The three header fields that must fit one byte each. -/
def HeaderInRange (p : PackedImage) : Prop :=
  p.boxSize ≤ 255 ∧ p.size.width ≤ 255 ∧ p.size.height ≤ 255

/-- Every serialized field of a box fits one byte. -/
def BoxFieldsInRange (b : PackedBox) : Prop :=
  b.x ≤ 255 ∧ b.y ≤ 255 ∧
  b.light.r ≤ 255 ∧ b.light.g ≤ 255 ∧ b.light.b ≤ 255 ∧
  b.dark.r ≤ 255 ∧ b.dark.g ≤ 255 ∧ b.dark.b ≤ 255 ∧
  ∀ px ∈ b.data, px.index ≤ 255

/-- A wire-ready box: every serialized field fits one byte, and the pixel
list is the canonical row-major enumeration of boxSize^2 entries (the wire
format does not store local pixel coordinates, it regenerates them). -/
def BoxInRange (boxSize : Nat) (b : PackedBox) : Prop :=
  BoxFieldsInRange b ∧
  b.data.length = boxSize ^ 2 ∧
  ∀ j : Nat, j < b.data.length →
    (b.data.getD j defaultPkPixel).x = j % boxSize ∧
    (b.data.getD j defaultPkPixel).y = j / boxSize

/-- A packed image whose serialization round-trips exactly: header fields
and box fields fit their bytes, the box count fits 24 bits, and every box
is canonical. -/
def PackedImageInRange (p : PackedImage) : Prop :=
  HeaderInRange p ∧ p.data.length < 2 ^ 24 ∧ ∀ b ∈ p.data, BoxInRange p.boxSize b

/-- A well-formed byte stream: bytes are bytes, the magic matches, the
version is the one the serializer writes, and the length is exactly the
header plus boxCount records of 8 + boxSize^2 bytes. -/
def WellFormedBytes (bytes : List Nat) : Prop :=
  (∀ x ∈ bytes, x < 256) ∧
  bytes.take 8 = MAGIC ∧
  bytes.getD 8 0 = 0 ∧
  bytes.getD 9 0 = 1 ∧
  bytes.length =
    16 + (bytes.getD 13 0 * 2 ^ 16 + bytes.getD 14 0 * 2 ^ 8 + bytes.getD 15 0)
      * (8 + bytes.getD 10 0 ^ 2)

/-! ### Concrete inputs used by witnesses and counterexamples -/

/-- Absolute byte offset at which the unpacker writes the R channel of a
pixel: ((width * absoluteY) + absoluteX) * 4, exactly the index expression
of writePixel. -/
def cellIndex (width boxSize : Nat) (box : PackedBox) (px : PkPixel) : Nat :=
  (width * (box.y * boxSize + px.y) + (box.x * boxSize + px.x)) * 4

/-- A buffer position written by some box pixel of the image. -/
def Touched (p : PackedImage) (j : Nat) : Prop :=
  ∃ b ∈ p.data, ∃ q ∈ b.data,
    cellIndex (p.size.width * p.boxSize) p.boxSize b q ≤ j ∧
    j ≤ cellIndex (p.size.width * p.boxSize) p.boxSize b q + 3

/-- Concrete well-formed byte stream for the C1 witness. -/
def c1Bytes : List Nat :=
  [99, 115, 113, 47, 113, 105, 109, 103, 0, 1, 1, 1, 1, 0, 0, 1,
    0, 0, 9, 8, 7, 1, 2, 3, 1]

/-- Concrete in-range packed image for the C1 witness. -/
def c1Image : PackedImage :=
  { size := { width := 1, height := 1 }, boxSize := 1
    data := [{ x := 0, y := 0
               light := { r := 9, g := 8, b := 7 }
               dark := { r := 1, g := 2, b := 3 }
               data := [{ x := 0, y := 0, index := 1 }] }] }

/-- Concrete one-pixel box for the C2 witness. -/
def c2Box : Box :=
  { x := 0, y := 0
    data := [{ x := 0, y := 0, color := { r := 5, g := 6, b := 7 } }] }

/-- Concrete one-box boxed image for the C2 witness. -/
def c2Image : BoxedImage :=
  { size := { width := 1, height := 1 }, boxSize := 1, data := [c2Box] }

/-- Concrete two-box image for the C3 witness, listed out of grid order. -/
def c3Image : PackedImage :=
  { size := { width := 2, height := 1 }, boxSize := 1
    data := [{ x := 1, y := 0, light := { r := 9, g := 9, b := 9 }
               dark := { r := 1, g := 1, b := 1 }
               data := [{ x := 0, y := 0, index := 1 }] },
             { x := 0, y := 0, light := { r := 8, g := 8, b := 8 }
               dark := { r := 2, g := 2, b := 2 }
               data := [{ x := 0, y := 0, index := 0 }] }] }

/-- A box whose only pixel ties with the box average: everything goes to
the light partition and the dark partition is empty. -/
def c4Box : Box :=
  { x := 0, y := 0
    data := [{ x := 0, y := 0, color := { r := 0, g := 0, b := 0 } }] }

/-- Concrete image for the C5 witness: boxSize 2, one tile. -/
def c5Image : PackedImage :=
  { size := { width := 1, height := 1 }, boxSize := 2
    data := [{ x := 0, y := 0
               light := { r := 200, g := 150, b := 100 }
               dark := { r := 10, g := 20, b := 30 }
               data := [{ x := 0, y := 0, index := 1 }, { x := 1, y := 0, index := 0 },
                        { x := 0, y := 1, index := 0 }, { x := 1, y := 1, index := 1 }] }] }

/-- Concrete 3 by 2 image for the C6 witness. -/
def c6Image : RasterImage :=
  { width := 3, height := 2, data := List.range 24 }

/-- Empty box used for the C7 counterexample. -/
def c7Box : PackedBox :=
  { x := 0, y := 0, light := { r := 0, g := 0, b := 0 }
    dark := { r := 0, g := 0, b := 0 }, data := [] }

/-- An image with 2^24 boxes, one more than fits the 24-bit count field. -/
def c7Image : PackedImage :=
  { size := { width := 0, height := 0 }, boxSize := 1
    data := List.replicate (2 ^ 24) c7Box }

/-- Concrete image for the C10 witness. -/
def c10Image : PackedImage :=
  { size := { width := 1, height := 1 }, boxSize := 1
    data := [{ x := 0, y := 0
               light := { r := 255, g := 255, b := 255 }
               dark := { r := 0, g := 0, b := 0 }
               data := [{ x := 0, y := 0, index := 1 }] }] }

instance (p : PackedImage) : Decidable (HeaderInRange p) := by
  unfold HeaderInRange
  infer_instance

instance (b : PackedBox) : Decidable (BoxFieldsInRange b) := by
  unfold BoxFieldsInRange
  infer_instance

instance (boxSize : Nat) (b : PackedBox) : Decidable (BoxInRange boxSize b) := by
  unfold BoxInRange
  infer_instance

instance (p : PackedImage) : Decidable (PackedImageInRange p) := by
  unfold PackedImageInRange
  infer_instance

instance (bytes : List Nat) : Decidable (WellFormedBytes bytes) := by
  unfold WellFormedBytes
  infer_instance

/-! ### List helper lemmas -/

theorem length_gridFlatMap {α : Type} (m n : Nat) (f : Nat → Nat → α) :
    ((List.range m).flatMap fun y => (List.range n).map fun x => f x y).length
      = m * n := by
  induction m with
  | zero => simp
  | succ m ih =>
    rw [List.range_succ, List.flatMap_append, List.length_append, ih]
    simp [Nat.succ_mul]

theorem getD_gridFlatMap {α : Type} (m n j : Nat) (f : Nat → Nat → α) (d : α)
    (h : j < m * n) :
    ((List.range m).flatMap fun y => (List.range n).map fun x => f x y).getD j d
      = f (j % n) (j / n) := by
  induction m with
  | zero => simp at h
  | succ m ih =>
    rw [List.range_succ, List.flatMap_append]
    have hlen : ((List.range m).flatMap fun y =>
        (List.range n).map fun x => f x y).length = m * n :=
      length_gridFlatMap m n f
    by_cases hj : j < m * n
    · rw [List.getD_append _ _ _ _ (by rw [hlen]; exact hj)]
      exact ih hj
    · have hsm : (m + 1) * n = m * n + n := Nat.succ_mul m n
      have hr : j - m * n < n := by omega
      have hn : 0 < n := by omega
      rw [List.getD_append_right _ _ _ _ (by rw [hlen]; omega), hlen]
      simp only [List.flatMap_cons, List.flatMap_nil, List.append_nil]
      rw [List.getD_eq_getElem _ _ (by simpa using hr), List.getElem_map,
        List.getElem_range]
      have hmod : j % n = j - m * n := by
        conv_lhs => rw [show j = n * m + (j - m * n) by rw [Nat.mul_comm]; omega]
        rw [Nat.mul_add_mod]
        exact Nat.mod_eq_of_lt hr
      have hdiv : j / n = m := by
        conv_lhs => rw [show j = n * m + (j - m * n) by rw [Nat.mul_comm]; omega]
        rw [Nat.mul_add_div hn, Nat.div_eq_of_lt hr]
        omega
      rw [hmod, hdiv]

theorem length_flatten_const {α : Type} (L : List (List α)) (s : Nat)
    (hs : ∀ l ∈ L, l.length = s) : L.flatten.length = L.length * s := by
  induction L with
  | nil => simp
  | cons a L ih =>
    rw [List.flatten_cons, List.length_append,
      ih fun l hl => hs l (List.mem_cons_of_mem a hl),
      hs a (List.mem_cons_self a L), List.length_cons]
    ring

theorem flatten_drop_take {α : Type} (L : List (List α)) (s : Nat)
    (hs : ∀ l ∈ L, l.length = s) (i : Nat) (hi : i < L.length) :
    (L.flatten.drop (s * i)).take s = L.getD i [] := by
  induction L generalizing i with
  | nil => simp at hi
  | cons a L ih =>
    cases i with
    | zero =>
      rw [List.flatten_cons, Nat.mul_zero, List.drop_zero,
        List.take_left' (hs a (List.mem_cons_self a L))]
      rfl
    | succ i =>
      rw [List.flatten_cons, show s * (i + 1) = s + s * i by ring,
        ← List.drop_drop, List.drop_left' (hs a (List.mem_cons_self a L))]
      simp only [List.getD_cons_succ]
      exact ih (fun l hl => hs l (List.mem_cons_of_mem a hl)) i
        (by simpa using hi)

theorem flatten_slices {α : Type} (l : List α) (s n : Nat)
    (hl : l.length = n * s) :
    ((List.range n).map fun i => (l.drop (s * i)).take s).flatten = l := by
  induction n generalizing l with
  | zero =>
    simp only [List.range_zero, List.map_nil, List.flatten_nil]
    exact (List.eq_nil_of_length_eq_zero (by simpa using hl)).symm
  | succ n ih =>
    have hl2 : l.length = n * s + s := by rw [hl, Nat.succ_mul]
    rw [List.range_succ_eq_map, List.map_cons, List.map_map, List.flatten_cons]
    have htail : (List.range n).map ((fun i => (l.drop (s * i)).take s) ∘ Nat.succ)
        = (List.range n).map fun i => ((l.drop s).drop (s * i)).take s := by
      apply List.map_congr_left
      intro i _
      simp only [Function.comp_apply]
      rw [List.drop_drop]
      congr 2
      rw [Nat.succ_eq_add_one]
      ring
    rw [htail, ih (l.drop s) (by simp [hl2])]
    simp [List.take_append_drop]

theorem map_mod_eq_self (l : List Nat) (h : ∀ x ∈ l, x < 256) :
    (l.map fun b => b % 256) = l := by
  induction l with
  | nil => rfl
  | cons a l ih =>
    rw [List.map_cons, ih fun x hx => h x (List.mem_cons_of_mem a hx),
      Nat.mod_eq_of_lt (h a (List.mem_cons_self a l))]

/-! ### Byte arithmetic lemmas -/

theorem and_ff_shift (n k : Nat) :
    (n &&& (0xFF <<< k)) >>> k = n / 2 ^ k % 2 ^ 8 := by
  apply Nat.eq_of_testBit_eq
  intro i
  rw [← Nat.shiftRight_eq_div_pow, Nat.testBit_shiftRight, Nat.testBit_and,
    Nat.testBit_shiftLeft, show (0xFF : Nat) = 2 ^ 8 - 1 by norm_num,
    Nat.testBit_two_pow_sub_one, Nat.testBit_mod_two_pow, Nat.testBit_shiftRight]
  have hge : k + i ≥ k := Nat.le_add_right k i
  have hsub : k + i - k = i := by omega
  rw [hsub]
  simp only [ge_iff_le, hge, decide_True, Bool.true_and]
  exact Bool.and_comm _ _

theorem and_ff (n : Nat) : n &&& 0xFF = n % 2 ^ 8 := by
  rw [show (0xFF : Nat) = 2 ^ 8 - 1 by norm_num]
  exact Nat.and_pow_two_sub_one_eq_mod n 8

theorem dataLengthBytes_eq (n : Nat) :
    dataLengthBytes n = [n / 2 ^ 16 % 2 ^ 8, n / 2 ^ 8 % 2 ^ 8, n % 2 ^ 8] := by
  rw [dataLengthBytes, and_ff_shift, and_ff_shift, and_ff]

theorem or_digits (d2 d1 d0 : Nat) (h1 : d1 < 256) (h0 : d0 < 256) :
    ((d2 <<< 16) ||| (d1 <<< 8)) ||| d0 = d2 * 2 ^ 16 + d1 * 2 ^ 8 + d0 := by
  have h28 : (2 : Nat) ^ 8 = 256 := by norm_num
  have h216 : (2 : Nat) ^ 16 = 65536 := by norm_num
  rw [Nat.shiftLeft_eq, Nat.shiftLeft_eq, Nat.mul_comm d2 (2 ^ 16),
    ← Nat.mul_add_lt_is_or (show d1 * 2 ^ 8 < 2 ^ 16 by omega) d2,
    show 2 ^ 16 * d2 + d1 * 2 ^ 8 = 2 ^ 8 * (2 ^ 8 * d2 + d1) by ring,
    ← Nat.mul_add_lt_is_or (show d0 < 2 ^ 8 by omega) _]

theorem digits_recombine (n : Nat) (h : n < 2 ^ 24) :
    n / 2 ^ 16 % 2 ^ 8 * 2 ^ 16 + n / 2 ^ 8 % 2 ^ 8 * 2 ^ 8 + n % 2 ^ 8 = n := by
  omega

/-! ### Serializer structure lemmas -/

theorem serialiseBytes_eq (p : PackedImage) :
    serialiseBytes p =
      99 :: 115 :: 113 :: 47 :: 113 :: 105 :: 109 :: 103 :: 0 :: 1 ::
      p.boxSize :: p.size.width :: p.size.height ::
      (p.data.length / 2 ^ 16 % 2 ^ 8) :: (p.data.length / 2 ^ 8 % 2 ^ 8) ::
      (p.data.length % 2 ^ 8) :: (p.data.map serialiseBox).flatten := by
  rw [serialiseBytes, dataLengthBytes_eq, MAGIC]
  rfl

theorem length_serialiseBox (b : PackedBox) :
    (serialiseBox b).length = 8 + b.data.length := by
  simp [serialiseBox]
  omega

theorem length_serialiseBytes (p : PackedImage)
    (hpx : ∀ b ∈ p.data, b.data.length = p.boxSize ^ 2) :
    (serialiseBytes p).length = 16 + p.data.length * (8 + p.boxSize ^ 2) := by
  rw [serialiseBytes_eq]
  simp only [List.length_cons]
  rw [length_flatten_const (p.data.map serialiseBox) (8 + p.boxSize ^ 2) ?_]
  · rw [List.length_map]
    ring
  · intro l hl
    obtain ⟨b, hb, rfl⟩ := List.mem_map.mp hl
    rw [length_serialiseBox, hpx b hb]

theorem serialiseBytes_lt_256 (p : PackedImage)
    (hbs : p.boxSize ≤ 255) (hw : p.size.width ≤ 255) (hh : p.size.height ≤ 255)
    (hboxes : ∀ b ∈ p.data, BoxFieldsInRange b) :
    ∀ x ∈ serialiseBytes p, x < 256 := by
  intro x hx
  rw [serialiseBytes_eq] at hx
  simp only [List.mem_cons] at hx
  rcases hx with rfl | rfl | rfl | rfl | rfl | rfl | rfl | rfl | rfl | rfl
    | rfl | rfl | rfl | rfl | rfl | rfl | hx
  · omega
  · omega
  · omega
  · omega
  · omega
  · omega
  · omega
  · omega
  · omega
  · omega
  · omega
  · omega
  · omega
  · omega
  · omega
  · omega
  · obtain ⟨l, hl, hxl⟩ := List.mem_flatten.mp hx
    obtain ⟨b, hb, rfl⟩ := List.mem_map.mp hl
    obtain ⟨hbx, hby, hlr, hlg, hlb, hdr, hdg, hdb, hidx⟩ := hboxes b hb
    rw [serialiseBox] at hxl
    simp only [List.mem_append, List.mem_cons, List.not_mem_nil, or_false,
      List.mem_map] at hxl
    rcases hxl with (rfl | rfl | rfl | rfl | rfl | rfl | rfl | rfl) | ⟨px, hpx, rfl⟩
    · omega
    · omega
    · omega
    · omega
    · omega
    · omega
    · omega
    · omega
    · exact Nat.lt_of_le_of_lt (hidx px hpx) (by norm_num)

theorem parsePixels_map_index (B : Nat) (ps : List PkPixel)
    (hlen : ps.length = B ^ 2)
    (hcanon : ∀ j : Nat, j < ps.length →
      (ps.getD j defaultPkPixel).x = j % B ∧ (ps.getD j defaultPkPixel).y = j / B) :
    parsePixels (ps.map fun px => px.index) B = ps := by
  apply List.ext_getElem
  · rw [parsePixels, length_gridFlatMap, hlen, Nat.pow_two]
  · intro j h1 h2
    rw [← List.getD_eq_getElem _ defaultPkPixel h1, ← List.getD_eq_getElem _ defaultPkPixel h2]
    have hj : j < B * B := by
      rw [parsePixels, length_gridFlatMap] at h1
      exact h1
    rw [parsePixels, getD_gridFlatMap _ _ _ _ _ hj]
    obtain ⟨hx, hy⟩ := hcanon j h2
    have hidx : j / B * B + j % B = j := by
      rw [Nat.mul_comm]
      exact Nat.div_add_mod j B
    ext
    · simpa using hx.symm
    · simpa using hy.symm
    · simp only []
      rw [hidx, List.getD_eq_getElem _ _ (by rw [List.length_map]; exact h2),
        List.getElem_map, List.getD_eq_getElem _ _ h2]

theorem parseBox_serialiseBox (B : Nat) (b : PackedBox)
    (hlen : b.data.length = B ^ 2)
    (hcanon : ∀ j : Nat, j < b.data.length →
      (b.data.getD j defaultPkPixel).x = j % B ∧
      (b.data.getD j defaultPkPixel).y = j / B) :
    parseBox (serialiseBox b) B = b := by
  have hdrop : (serialiseBox b).drop 8 = b.data.map fun px => px.index := rfl
  rw [parseBox, hdrop]
  ext
  · rfl
  · rfl
  · rfl
  · rfl
  · rfl
  · rfl
  · rfl
  · rfl
  · rw [parsePixels_map_index B b.data hlen hcanon]

/-! ### Deserializer structure lemmas -/

theorem deserialiseIntoPacked_eq (bytes : List Nat)
    (hm : magicMatches ((bytes.take 16).take 8) = true) :
    deserialiseIntoPacked bytes = Except.ok
      { size := { width := (bytes.take 16).getD 11 0
                  height := (bytes.take 16).getD 12 0 }
        boxSize := (bytes.take 16).getD 10 0
        data := (List.range ((((bytes.take 16).getD 13 0) <<< 16) |||
            (((bytes.take 16).getD 14 0) <<< 8) ||| (bytes.take 16).getD 15 0)).map
          fun i =>
            parseBox (((bytes.drop 16).drop
                ((2 + 3 + 3 + (bytes.take 16).getD 10 0 ^ 2) * i)).take
              (2 + 3 + 3 + (bytes.take 16).getD 10 0 ^ 2))
              ((bytes.take 16).getD 10 0) } := by
  rw [deserialiseIntoPacked]
  simp only [hm, if_true]

theorem deserialise_serialiseBytes (p : PackedImage)
    (hcount : p.data.length < 2 ^ 24)
    (hboxes : ∀ b ∈ p.data, BoxInRange p.boxSize b) :
    deserialiseIntoPacked (serialiseBytes p) = Except.ok p := by
  have htake16 : (serialiseBytes p).take 16 =
      [99, 115, 113, 47, 113, 105, 109, 103, 0, 1,
        p.boxSize, p.size.width, p.size.height,
        p.data.length / 2 ^ 16 % 2 ^ 8, p.data.length / 2 ^ 8 % 2 ^ 8,
        p.data.length % 2 ^ 8] := by
    rw [serialiseBytes_eq]
    rfl
  have hdrop16 : (serialiseBytes p).drop 16 = (p.data.map serialiseBox).flatten := by
    rw [serialiseBytes_eq]
    rfl
  have hmagic : magicMatches (((serialiseBytes p).take 16).take 8) = true := by
    rw [htake16]
    rfl
  have h10 : ((serialiseBytes p).take 16).getD 10 0 = p.boxSize := by
    rw [htake16]
    rfl
  have h11 : ((serialiseBytes p).take 16).getD 11 0 = p.size.width := by
    rw [htake16]
    rfl
  have h12 : ((serialiseBytes p).take 16).getD 12 0 = p.size.height := by
    rw [htake16]
    rfl
  have h13 : ((serialiseBytes p).take 16).getD 13 0 = p.data.length / 2 ^ 16 % 2 ^ 8 := by
    rw [htake16]
    rfl
  have h14 : ((serialiseBytes p).take 16).getD 14 0 = p.data.length / 2 ^ 8 % 2 ^ 8 := by
    rw [htake16]
    rfl
  have h15 : ((serialiseBytes p).take 16).getD 15 0 = p.data.length % 2 ^ 8 := by
    rw [htake16]
    rfl
  rw [deserialiseIntoPacked_eq _ hmagic, h10, h11, h12, h13, h14, h15, hdrop16]
  have hN : ((p.data.length / 2 ^ 16 % 2 ^ 8) <<< 16) |||
      ((p.data.length / 2 ^ 8 % 2 ^ 8) <<< 8) ||| (p.data.length % 2 ^ 8)
        = p.data.length := by
    rw [or_digits _ _ _ (by omega) (by omega)]
    exact digits_recombine _ hcount
  rw [hN]
  have hreclen : ∀ l ∈ p.data.map serialiseBox, l.length = 2 + 3 + 3 + p.boxSize ^ 2 := by
    intro l hl
    obtain ⟨b, hb, rfl⟩ := List.mem_map.mp hl
    rw [length_serialiseBox, (hboxes b hb).2.1]
  refine congrArg Except.ok ?_
  refine PackedImage.ext ?_ rfl ?_
  · rfl
  · apply List.ext_getElem
    · simp
    · intro i h1 h2
      rw [List.getElem_map, List.getElem_range]
      have hi : i < p.data.length := by simpa using h1
      rw [flatten_drop_take (p.data.map serialiseBox) _ hreclen i
        (by rw [List.length_map]; exact hi)]
      rw [List.getD_eq_getElem _ _ (by rw [List.length_map]; exact hi),
        List.getElem_map]
      obtain ⟨_, hblen, hcanon⟩ := hboxes p.data[i] (p.data.getElem_mem _)
      exact parseBox_serialiseBox p.boxSize _ hblen hcanon

theorem parsePixels_index (B : Nat) (pb : List Nat) (hlen : pb.length = B ^ 2) :
    (parsePixels pb B).map (fun px => px.index) = pb := by
  apply List.ext_getElem
  · rw [List.length_map, parsePixels, length_gridFlatMap, hlen, Nat.pow_two]
  · intro j h1 h2
    have hj : j < B * B := by
      rw [List.length_map, parsePixels, length_gridFlatMap] at h1
      exact h1
    have hj2 : j < (parsePixels pb B).length := by
      rw [parsePixels, length_gridFlatMap]
      exact hj
    rw [List.getElem_map, ← List.getD_eq_getElem _ defaultPkPixel hj2, parsePixels,
      getD_gridFlatMap _ _ _ _ _ hj]
    have hidx : j / B * B + j % B = j := by
      rw [Nat.mul_comm]
      exact Nat.div_add_mod j B
    simp only [hidx]
    rw [List.getD_eq_getElem _ _ h2]

theorem cons_getD_drop_eight (l : List Nat) (h : 8 ≤ l.length) :
    [l.getD 0 0, l.getD 1 0, l.getD 2 0, l.getD 3 0, l.getD 4 0, l.getD 5 0,
      l.getD 6 0, l.getD 7 0] ++ l.drop 8 = l := by
  match l, h with
  | a0 :: a1 :: a2 :: a3 :: a4 :: a5 :: a6 :: a7 :: rest, _ => rfl
  | [], h => simp at h
  | [_], h => simp at h
  | [_, _], h => simp at h
  | [_, _, _], h => simp at h
  | [_, _, _, _], h => simp at h
  | [_, _, _, _, _], h => simp at h
  | [_, _, _, _, _, _], h => simp at h
  | [_, _, _, _, _, _, _], h => simp at h

theorem serialiseBox_parseBox (B : Nat) (bb : List Nat)
    (hlen : bb.length = 8 + B ^ 2) :
    serialiseBox (parseBox bb B) = bb := by
  show [bb.getD 0 0, bb.getD 1 0, bb.getD 2 0, bb.getD 3 0, bb.getD 4 0,
      bb.getD 5 0, bb.getD 6 0, bb.getD 7 0]
      ++ (parsePixels (bb.drop 8) B).map (fun px => px.index) = bb
  rw [parsePixels_index B (bb.drop 8) (by rw [List.length_drop, hlen]; omega)]
  exact cons_getD_drop_eight bb (by omega)

theorem serialise_deserialiseBytes (bytes : List Nat) (h : WellFormedBytes bytes) :
    Except.bind (deserialiseIntoPacked bytes) serialiseFromPacked
      = Except.ok bytes := by
  obtain ⟨h256, hmagic8, h8, h9, hlen⟩ := h
  have hlen16 : 16 ≤ bytes.length := by rw [hlen]; omega
  have hbytelt : ∀ k, k < bytes.length → bytes.getD k 0 < 256 := by
    intro k hk
    rw [List.getD_eq_getElem _ _ hk]
    exact h256 _ (List.getElem_mem hk)
  have hd10 : bytes.getD 10 0 < 256 := hbytelt 10 (by omega)
  have hd11 : bytes.getD 11 0 < 256 := hbytelt 11 (by omega)
  have hd12 : bytes.getD 12 0 < 256 := hbytelt 12 (by omega)
  have hd13 : bytes.getD 13 0 < 256 := hbytelt 13 (by omega)
  have hd14 : bytes.getD 14 0 < 256 := hbytelt 14 (by omega)
  have hd15 : bytes.getD 15 0 < 256 := hbytelt 15 (by omega)
  have hget : ∀ k, k < 16 → (bytes.take 16).getD k 0 = bytes.getD k 0 := by
    intro k hk
    rw [List.getD_eq_getD_get?, List.getD_eq_getD_get?, List.get?_eq_getElem?,
      List.get?_eq_getElem?, List.getElem?_take, if_pos hk]
  have hm : magicMatches ((bytes.take 16).take 8) = true := by
    rw [List.take_take, show (8 : ℕ) ⊓ 16 = 8 by norm_num, hmagic8]
    rfl
  rw [deserialiseIntoPacked_eq bytes hm]
  simp only [Except.bind]
  rw [hget 10 (by omega), hget 11 (by omega), hget 12 (by omega),
    hget 13 (by omega), hget 14 (by omega), hget 15 (by omega),
    or_digits _ _ _ hd14 hd15]
  rw [serialiseFromPacked,
    if_neg (show ¬(255 < bytes.getD 10 0 ∨ 255 < bytes.getD 11 0
      ∨ 255 < bytes.getD 12 0) by omega)]
  refine congrArg Except.ok ?_
  have hL : 2 + 3 + 3 + bytes.getD 10 0 ^ 2 = 8 + bytes.getD 10 0 ^ 2 := by
    norm_num
  have hrest : (bytes.drop 16).length
      = (bytes.getD 13 0 * 2 ^ 16 + bytes.getD 14 0 * 2 ^ 8 + bytes.getD 15 0)
        * (2 + 3 + 3 + bytes.getD 10 0 ^ 2) := by
    rw [List.length_drop, hlen, hL]
    omega
  have hmapslices :
      ((List.range (bytes.getD 13 0 * 2 ^ 16 + bytes.getD 14 0 * 2 ^ 8
          + bytes.getD 15 0)).map fun i =>
        parseBox (((bytes.drop 16).drop
            ((2 + 3 + 3 + bytes.getD 10 0 ^ 2) * i)).take
          (2 + 3 + 3 + bytes.getD 10 0 ^ 2)) (bytes.getD 10 0)).map serialiseBox
      = (List.range (bytes.getD 13 0 * 2 ^ 16 + bytes.getD 14 0 * 2 ^ 8
          + bytes.getD 15 0)).map fun i =>
        ((bytes.drop 16).drop ((2 + 3 + 3 + bytes.getD 10 0 ^ 2) * i)).take
          (2 + 3 + 3 + bytes.getD 10 0 ^ 2) := by
    rw [List.map_map]
    apply List.map_congr_left
    intro i hi
    have hi2 : i < bytes.getD 13 0 * 2 ^ 16 + bytes.getD 14 0 * 2 ^ 8
        + bytes.getD 15 0 := List.mem_range.mp hi
    simp only [Function.comp_apply]
    apply serialiseBox_parseBox
    have hmul : (2 + 3 + 3 + bytes.getD 10 0 ^ 2) * (i + 1)
        ≤ (2 + 3 + 3 + bytes.getD 10 0 ^ 2)
          * (bytes.getD 13 0 * 2 ^ 16 + bytes.getD 14 0 * 2 ^ 8 + bytes.getD 15 0) :=
      Nat.mul_le_mul_left _ (by omega)
    rw [Nat.mul_succ] at hmul
    have hcomm : (2 + 3 + 3 + bytes.getD 10 0 ^ 2)
          * (bytes.getD 13 0 * 2 ^ 16 + bytes.getD 14 0 * 2 ^ 8 + bytes.getD 15 0)
        = (bytes.getD 13 0 * 2 ^ 16 + bytes.getD 14 0 * 2 ^ 8 + bytes.getD 15 0)
          * (2 + 3 + 3 + bytes.getD 10 0 ^ 2) := Nat.mul_comm _ _
    rw [List.length_take, List.length_drop, hrest, hL]
    rw [hL] at hmul hcomm
    omega
  have hflat :
      ((List.range (bytes.getD 13 0 * 2 ^ 16 + bytes.getD 14 0 * 2 ^ 8
          + bytes.getD 15 0)).map fun i =>
        ((bytes.drop 16).drop ((2 + 3 + 3 + bytes.getD 10 0 ^ 2) * i)).take
          (2 + 3 + 3 + bytes.getD 10 0 ^ 2)).flatten = bytes.drop 16 :=
    flatten_slices (bytes.drop 16) _ _ hrest
  have hgm : ∀ k, k < 8 → bytes.getD k 0 = MAGIC.getD k 0 := by
    intro k hk
    rw [← hmagic8, List.getD_eq_getD_get?, List.getD_eq_getD_get?,
      List.get?_eq_getElem?, List.get?_eq_getElem?, List.getElem?_take, if_pos hk]
  have hhead : bytes.take 16 =
      [99, 115, 113, 47, 113, 105, 109, 103, 0, 1,
        bytes.getD 10 0, bytes.getD 11 0, bytes.getD 12 0,
        (bytes.getD 13 0 * 2 ^ 16 + bytes.getD 14 0 * 2 ^ 8 + bytes.getD 15 0)
          / 2 ^ 16 % 2 ^ 8,
        (bytes.getD 13 0 * 2 ^ 16 + bytes.getD 14 0 * 2 ^ 8 + bytes.getD 15 0)
          / 2 ^ 8 % 2 ^ 8,
        (bytes.getD 13 0 * 2 ^ 16 + bytes.getD 14 0 * 2 ^ 8 + bytes.getD 15 0)
          % 2 ^ 8] := by
    have e13 : (bytes.getD 13 0 * 2 ^ 16 + bytes.getD 14 0 * 2 ^ 8
        + bytes.getD 15 0) / 2 ^ 16 % 2 ^ 8 = bytes.getD 13 0 := by omega
    have e14 : (bytes.getD 13 0 * 2 ^ 16 + bytes.getD 14 0 * 2 ^ 8
        + bytes.getD 15 0) / 2 ^ 8 % 2 ^ 8 = bytes.getD 14 0 := by omega
    have e15 : (bytes.getD 13 0 * 2 ^ 16 + bytes.getD 14 0 * 2 ^ 8
        + bytes.getD 15 0) % 2 ^ 8 = bytes.getD 15 0 := by omega
    rw [e13, e14, e15]
    apply List.ext_getElem
    · rw [List.length_take, Nat.min_eq_left hlen16]
      rfl
    · intro i h1 h2
      rw [List.getElem_take]
      have hi16 : i < 16 := by
        rw [List.length_take, Nat.min_eq_left hlen16] at h1
        exact h1
      have hmagel : ∀ hk : i < 8, bytes[i] = MAGIC.getD i 0 := by
        intro hk
        rw [← List.getD_eq_getElem _ 0 (by omega)]
        exact hgm i hk
      interval_cases i
      · rw [hmagel (by omega)]; rfl
      · rw [hmagel (by omega)]; rfl
      · rw [hmagel (by omega)]; rfl
      · rw [hmagel (by omega)]; rfl
      · rw [hmagel (by omega)]; rfl
      · rw [hmagel (by omega)]; rfl
      · rw [hmagel (by omega)]; rfl
      · rw [hmagel (by omega)]; rfl
      · rw [← List.getD_eq_getElem _ 0 (by omega)]; exact h8
      · rw [← List.getD_eq_getElem _ 0 (by omega)]; exact h9
      · rw [← List.getD_eq_getElem _ 0 (by omega)]; rfl
      · rw [← List.getD_eq_getElem _ 0 (by omega)]; rfl
      · rw [← List.getD_eq_getElem _ 0 (by omega)]; rfl
      · rw [← List.getD_eq_getElem _ 0 (by omega)]; rfl
      · rw [← List.getD_eq_getElem _ 0 (by omega)]; rfl
      · rw [← List.getD_eq_getElem _ 0 (by omega)]; rfl
  rw [serialiseBytes_eq]
  simp only [List.length_map, List.length_range]
  rw [hmapslices, hflat]
  conv_rhs => rw [← List.take_append_drop 16 bytes]
  rw [hhead]
  apply map_mod_eq_self
  intro x hx
  simp only [List.mem_cons] at hx
  rcases hx with rfl | rfl | rfl | rfl | rfl | rfl | rfl | rfl | rfl | rfl
    | rfl | rfl | rfl | rfl | rfl | rfl | hx
  · omega
  · omega
  · omega
  · omega
  · omega
  · omega
  · omega
  · omega
  · omega
  · omega
  · omega
  · omega
  · omega
  · omega
  · omega
  · omega
  · exact h256 x (List.mem_of_mem_drop hx)

/-! ### Decidability of the well-formedness predicates -/

/-- Dividing the cropped extent by the box size is floor division. -/
theorem cropped_div (w b : Nat) (hb : 0 < b) : (w - w % b) / b = w / b := by
  conv_lhs =>
    rw [show w - w % b = b * (w / b) by
      have := Nat.div_add_mod w b
      omega]
  rw [Nat.mul_div_cancel_left _ hb]

/-! ### Claim C5: serialized byte layout -/

/-- C5: for a PackedImage with in-range fields, the serializer emits the 8
magic bytes csq/qimg at offset 0, version bytes 0 and 1 at offsets 8 and 9,
boxSize, width and height at offsets 10 to 12, the 24-bit big-endian box
count at offsets 13 to 15, and the total length is
16 + boxCount * (8 + boxSize^2) when every box has boxSize^2 entries. -/
theorem serialise_layout (p : PackedImage)
    (hh : HeaderInRange p) (hcount : p.data.length < 2 ^ 24)
    (hfields : ∀ b ∈ p.data, BoxFieldsInRange b)
    (hpx : ∀ b ∈ p.data, b.data.length = p.boxSize ^ 2) :
    serialiseFromPacked p = Except.ok (serialiseBytes p) ∧
    (serialiseBytes p).take 8 = MAGIC ∧
    (serialiseBytes p).getD 8 0 = 0 ∧ (serialiseBytes p).getD 9 0 = 1 ∧
    (serialiseBytes p).getD 10 0 = p.boxSize ∧
    (serialiseBytes p).getD 11 0 = p.size.width ∧
    (serialiseBytes p).getD 12 0 = p.size.height ∧
    [(serialiseBytes p).getD 13 0, (serialiseBytes p).getD 14 0,
      (serialiseBytes p).getD 15 0]
      = [p.data.length / 2 ^ 16, p.data.length / 2 ^ 8 % 2 ^ 8,
        p.data.length % 2 ^ 8] ∧
    (serialiseBytes p).length = 16 + p.data.length * (8 + p.boxSize ^ 2) := by
  obtain ⟨hbs, hwid, hhei⟩ := hh
  refine ⟨?_, ?_, ?_, ?_, ?_, ?_, ?_, ?_, ?_⟩
  · rw [serialiseFromPacked, if_neg (by omega),
      map_mod_eq_self _ (serialiseBytes_lt_256 p hbs hwid hhei hfields)]
  · rw [serialiseBytes_eq]
    rfl
  · rw [serialiseBytes_eq]
    rfl
  · rw [serialiseBytes_eq]
    rfl
  · rw [serialiseBytes_eq]
    rfl
  · rw [serialiseBytes_eq]
    rfl
  · rw [serialiseBytes_eq]
    rfl
  · rw [serialiseBytes_eq]
    have e13 : p.data.length / 2 ^ 16 % 2 ^ 8 = p.data.length / 2 ^ 16 := by
      omega
    show [p.data.length / 2 ^ 16 % 2 ^ 8, p.data.length / 2 ^ 8 % 2 ^ 8,
      p.data.length % 2 ^ 8] = _
    rw [e13]
  · exact length_serialiseBytes p hpx

/-- Witness for C5 at a concrete one-tile image with boxSize 2. -/
theorem serialise_layout_witness :
    (HeaderInRange c5Image ∧ c5Image.data.length < 2 ^ 24 ∧
      (∀ b ∈ c5Image.data, BoxFieldsInRange b) ∧
      (∀ b ∈ c5Image.data, b.data.length = c5Image.boxSize ^ 2)) ∧
    (serialiseFromPacked c5Image = Except.ok (serialiseBytes c5Image) ∧
    (serialiseBytes c5Image).take 8 = MAGIC ∧
    (serialiseBytes c5Image).getD 8 0 = 0 ∧ (serialiseBytes c5Image).getD 9 0 = 1 ∧
    (serialiseBytes c5Image).getD 10 0 = c5Image.boxSize ∧
    (serialiseBytes c5Image).getD 11 0 = c5Image.size.width ∧
    (serialiseBytes c5Image).getD 12 0 = c5Image.size.height ∧
    [(serialiseBytes c5Image).getD 13 0, (serialiseBytes c5Image).getD 14 0,
      (serialiseBytes c5Image).getD 15 0]
      = [c5Image.data.length / 2 ^ 16, c5Image.data.length / 2 ^ 8 % 2 ^ 8,
        c5Image.data.length % 2 ^ 8] ∧
    (serialiseBytes c5Image).length
      = 16 + c5Image.data.length * (8 + c5Image.boxSize ^ 2)) :=
  ⟨⟨by decide, by decide, by decide, by decide⟩,
    serialise_layout c5Image (by decide) (by decide) (by decide) (by decide)⟩

/-! ### Claim C7: serializer overflow check -/

/-- C7 counterexample: a box count above 2^24 - 1 does not make the
serializer fail; the source never checks the count. -/
theorem serialise_overflow_counterexample :
    2 ^ 24 - 1 < c7Image.data.length ∧
    serialiseFromPacked c7Image ≠ Except.error QimgError.fieldOverflow := by
  constructor
  · have hl : c7Image.data.length = 2 ^ 24 := List.length_replicate _ _
    omega
  · rw [serialiseFromPacked,
      if_neg (show ¬(255 < c7Image.boxSize ∨ 255 < c7Image.size.width
        ∨ 255 < c7Image.size.height) by decide)]
    intro hcon
    exact Except.noConfusion hcon

/-- C7 amended: serialization fails with FieldOverflow exactly when one of
boxSize, width or height exceeds 255; the box count is never validated, and
in every other case the full byte stream is returned. -/
theorem serialise_overflow_iff (p : PackedImage) :
    (serialiseFromPacked p = Except.error QimgError.fieldOverflow
      ↔ 255 < p.boxSize ∨ 255 < p.size.width ∨ 255 < p.size.height) ∧
    (serialiseFromPacked p = Except.ok ((serialiseBytes p).map fun b => b % 256)
      ↔ ¬(255 < p.boxSize ∨ 255 < p.size.width ∨ 255 < p.size.height)) := by
  constructor
  · constructor
    · intro h
      by_contra hc
      rw [serialiseFromPacked, if_neg hc] at h
      exact Except.noConfusion h
    · intro hc
      rw [serialiseFromPacked, if_pos hc]
  · constructor
    · intro h hc
      rw [serialiseFromPacked, if_pos hc] at h
      exact Except.noConfusion h
    · intro hc
      rw [serialiseFromPacked, if_neg hc]

/-! ### Claim C10: box-count truncation -/

/-- C10: the three count bytes are the big-endian base-256 digits of the
box count reduced mod 2^24, and every box record is emitted regardless, so
an overlong box list wraps the declared count while the records remain. -/
theorem serialise_count_wrap (p : PackedImage)
    (h : ¬(255 < p.boxSize ∨ 255 < p.size.width ∨ 255 < p.size.height)) :
    serialiseFromPacked p = Except.ok ((serialiseBytes p).map fun b => b % 256) ∧
    ((serialiseBytes p).map fun b => b % 256).getD 13 0
      = p.data.length % 2 ^ 24 / 2 ^ 16 ∧
    ((serialiseBytes p).map fun b => b % 256).getD 14 0
      = p.data.length % 2 ^ 24 / 2 ^ 8 % 2 ^ 8 ∧
    ((serialiseBytes p).map fun b => b % 256).getD 15 0
      = p.data.length % 2 ^ 24 % 2 ^ 8 ∧
    ((serialiseBytes p).map fun b => b % 256).length
      = 16 + (p.data.map fun b => 8 + b.data.length).sum := by
  have hlen : (serialiseBytes p).length
      = 16 + (p.data.map fun b => 8 + b.data.length).sum := by
    rw [serialiseBytes_eq]
    simp only [List.length_cons, List.length_flatten, List.map_map]
    rw [List.map_congr_left
      (fun b _ => by
        simp only [Function.comp_apply]
        exact length_serialiseBox b)]
    omega
  have hmapget : ∀ k, k < 16 →
      ((serialiseBytes p).map fun b => b % 256).getD k 0
        = (serialiseBytes p).getD k 0 % 256 := by
    intro k hk
    rw [List.getD_eq_getElem _ _ (by rw [List.length_map]; omega),
      List.getElem_map, List.getD_eq_getElem _ _ (by omega)]
  have hg13 : (serialiseBytes p).getD 13 0 = p.data.length / 2 ^ 16 % 2 ^ 8 := by
    rw [serialiseBytes_eq]
    rfl
  have hg14 : (serialiseBytes p).getD 14 0 = p.data.length / 2 ^ 8 % 2 ^ 8 := by
    rw [serialiseBytes_eq]
    rfl
  have hg15 : (serialiseBytes p).getD 15 0 = p.data.length % 2 ^ 8 := by
    rw [serialiseBytes_eq]
    rfl
  refine ⟨?_, ?_, ?_, ?_, ?_⟩
  · rw [serialiseFromPacked, if_neg h]
  · rw [hmapget 13 (by omega), hg13]
    omega
  · rw [hmapget 14 (by omega), hg14]
    omega
  · rw [hmapget 15 (by omega), hg15]
    omega
  · rw [List.length_map, hlen]

/-- Witness for C10 at a concrete one-box image. -/
theorem serialise_count_wrap_witness :
    ¬(255 < c10Image.boxSize ∨ 255 < c10Image.size.width
      ∨ 255 < c10Image.size.height) ∧
    (serialiseFromPacked c10Image
        = Except.ok ((serialiseBytes c10Image).map fun b => b % 256) ∧
    ((serialiseBytes c10Image).map fun b => b % 256).getD 13 0
      = c10Image.data.length % 2 ^ 24 / 2 ^ 16 ∧
    ((serialiseBytes c10Image).map fun b => b % 256).getD 14 0
      = c10Image.data.length % 2 ^ 24 / 2 ^ 8 % 2 ^ 8 ∧
    ((serialiseBytes c10Image).map fun b => b % 256).getD 15 0
      = c10Image.data.length % 2 ^ 24 % 2 ^ 8 ∧
    ((serialiseBytes c10Image).map fun b => b % 256).length
      = 16 + (c10Image.data.map fun b => 8 + b.data.length).sum) :=
  ⟨by decide, serialise_count_wrap c10Image (by decide)⟩

/-! ### Claim C1: serialization round trip -/

/-- C1: a well-formed byte stream deserializes and re-serializes to
itself, and a PackedImage with byte-representable fields, a 24-bit box
count and canonical row-major pixel lists serializes and deserializes back
to itself. -/
theorem serialise_deserialise_roundTrip (bytes : List Nat) (p : PackedImage)
    (hbytes : WellFormedBytes bytes) (hp : PackedImageInRange p) :
    Except.bind (deserialiseIntoPacked bytes) serialiseFromPacked
      = Except.ok bytes ∧
    Except.bind (serialiseFromPacked p) deserialiseIntoPacked
      = Except.ok p := by
  constructor
  · exact serialise_deserialiseBytes bytes hbytes
  · obtain ⟨⟨hbs, hw, hh⟩, hcount, hboxes⟩ := hp
    rw [serialiseFromPacked, if_neg (by omega)]
    simp only [Except.bind]
    rw [map_mod_eq_self _
      (serialiseBytes_lt_256 p hbs hw hh fun b hb => (hboxes b hb).1)]
    exact deserialise_serialiseBytes p hcount hboxes

/-- Witness for C1 at a concrete byte stream and a concrete image. -/
theorem serialise_deserialise_roundTrip_witness :
    (WellFormedBytes c1Bytes ∧ PackedImageInRange c1Image) ∧
    (Except.bind (deserialiseIntoPacked c1Bytes) serialiseFromPacked
        = Except.ok c1Bytes ∧
      Except.bind (serialiseFromPacked c1Image) deserialiseIntoPacked
        = Except.ok c1Image) :=
  ⟨⟨by decide, by decide⟩,
    serialise_deserialise_roundTrip c1Bytes c1Image (by decide) (by decide)⟩

/-! ### Claim C6: boxifier output -/

/-- C6: for a positive box size the boxifier returns the floor-divided
grid size, produces exactly width times height boxes in row-major grid
order, and fills each box with boxSize^2 pixels in row-major local
order. -/
theorem boxify_spec (image : RasterImage) (boxSize : Nat) (h : 0 < boxSize) :
    (boxify image boxSize).size.width = image.width / boxSize ∧
    (boxify image boxSize).size.height = image.height / boxSize ∧
    (boxify image boxSize).data.length
      = (boxify image boxSize).size.width * (boxify image boxSize).size.height ∧
    (∀ i : Nat, i < (boxify image boxSize).data.length →
      ((boxify image boxSize).data.getD i defaultBox).x
          = i % (boxify image boxSize).size.width ∧
      ((boxify image boxSize).data.getD i defaultBox).y
          = i / (boxify image boxSize).size.width) ∧
    ∀ i : Nat, i < (boxify image boxSize).data.length →
      ((boxify image boxSize).data.getD i defaultBox).data.length = boxSize ^ 2 ∧
      ∀ j : Nat, j < boxSize ^ 2 →
        ((((boxify image boxSize).data.getD i defaultBox).data.getD j
            defaultPixel).x = j % boxSize ∧
          (((boxify image boxSize).data.getD i defaultBox).data.getD j
            defaultPixel).y = j / boxSize) := by
  have hW := cropped_div image.width boxSize h
  have hH := cropped_div image.height boxSize h
  simp only [boxify]
  refine ⟨hW, hH, ?_, ?_, ?_⟩
  · rw [length_gridFlatMap]
    exact Nat.mul_comm _ _
  · intro i hi
    rw [length_gridFlatMap] at hi
    rw [getD_gridFlatMap _ _ _ _ _ hi]
    exact ⟨rfl, rfl⟩
  · intro i hi
    rw [length_gridFlatMap] at hi
    rw [getD_gridFlatMap _ _ _ _ _ hi]
    refine ⟨?_, ?_⟩
    · rw [length_gridFlatMap]
      exact (Nat.pow_two _).symm
    · intro j hj
      rw [Nat.pow_two] at hj
      rw [getD_gridFlatMap _ _ _ _ _ hj]
      exact ⟨rfl, rfl⟩

/-- Witness for C6 at the concrete image with box size 2. -/
theorem boxify_spec_witness :
    0 < 2 ∧
    ((boxify c6Image 2).size.width = c6Image.width / 2 ∧
    (boxify c6Image 2).size.height = c6Image.height / 2 ∧
    (boxify c6Image 2).data.length
      = (boxify c6Image 2).size.width * (boxify c6Image 2).size.height ∧
    (∀ i : Nat, i < (boxify c6Image 2).data.length →
      ((boxify c6Image 2).data.getD i defaultBox).x
          = i % (boxify c6Image 2).size.width ∧
      ((boxify c6Image 2).data.getD i defaultBox).y
          = i / (boxify c6Image 2).size.width) ∧
    ∀ i : Nat, i < (boxify c6Image 2).data.length →
      ((boxify c6Image 2).data.getD i defaultBox).data.length = 2 ^ 2 ∧
      ∀ j : Nat, j < 2 ^ 2 →
        ((((boxify c6Image 2).data.getD i defaultBox).data.getD j
            defaultPixel).x = j % 2 ∧
          (((boxify c6Image 2).data.getD i defaultBox).data.getD j
            defaultPixel).y = j / 2)) :=
  ⟨by decide, boxify_spec c6Image 2 (by decide)⟩

/-! ### Claim C8: box-size validation -/

/-- C8 (source defect): the only box-size validation in the pipeline is
the falsiness guard in compress, so 0 is rejected with InvalidParameter,
but a negative box size satisfies boxSize <= 0 and still passes the guard
with no error (the boxify loops then never terminate on it). -/
theorem boxSizeGuard_eval :
    compressBoxSizeGuard 0 = some QimgError.invalidParameter ∧
    (-1 : Int) ≤ 0 ∧ compressBoxSizeGuard (-1) = none ∧
    compressBoxSizeGuard 1 = none := by
  decide

/-! ### Claim C9: luminance properties -/

/-- C9: luminance is monotone when every channel is held non-decreasing,
is 0 on black, and is exactly 1 on white in the real-number model (the
three weights sum to 1). -/
theorem getLuminance_props (c d : Color) (hr : c.r ≤ d.r) (hg : c.g ≤ d.g)
    (hb : c.b ≤ d.b) :
    getLuminance c ≤ getLuminance d ∧
    getLuminance { r := 0, g := 0, b := 0 } = 0 ∧
    getLuminance { r := 255, g := 255, b := 255 } = 1 := by
  refine ⟨?_, ?_, ?_⟩
  · rw [getLuminance, getLuminance]
    have h1 : (c.r : ℝ) ≤ d.r := Nat.cast_le.mpr hr
    have h2 : (c.g : ℝ) ≤ d.g := Nat.cast_le.mpr hg
    have h3 : (c.b : ℝ) ≤ d.b := Nat.cast_le.mpr hb
    gcongr
  · rw [getLuminance]
    norm_num
  · rw [getLuminance]
    norm_num
    rw [show (65025 : ℝ) = 255 ^ 2 by norm_num,
      Real.sqrt_sq (by norm_num : (0 : ℝ) ≤ 255)]
    norm_num

/-- Witness for C9 at two concrete colors. -/
theorem getLuminance_props_witness :
    (({ r := 0, g := 0, b := 0 } : Color).r ≤ ({ r := 1, g := 2, b := 3 } : Color).r ∧
      ({ r := 0, g := 0, b := 0 } : Color).g ≤ ({ r := 1, g := 2, b := 3 } : Color).g ∧
      ({ r := 0, g := 0, b := 0 } : Color).b ≤ ({ r := 1, g := 2, b := 3 } : Color).b) ∧
    (getLuminance { r := 0, g := 0, b := 0 }
        ≤ getLuminance { r := 1, g := 2, b := 3 } ∧
      getLuminance { r := 0, g := 0, b := 0 } = 0 ∧
      getLuminance { r := 255, g := 255, b := 255 } = 1) :=
  ⟨⟨by decide, by decide, by decide⟩,
    getLuminance_props { r := 0, g := 0, b := 0 } { r := 1, g := 2, b := 3 }
      (by decide) (by decide) (by decide)⟩

/-! ### Claim C2: packer partition -/

/-- Indices emitted by the packer are exactly the 0 or 1 split counts. -/
theorem countP_indices (l : List PkPixel)
    (h01 : ∀ q ∈ l, q.index = 0 ∨ q.index = 1) :
    (l.countP fun q => q.index == 1) + (l.countP fun q => q.index == 0)
      = l.length := by
  induction l with
  | nil => rfl
  | cons a l ih =>
    rw [List.countP_cons, List.countP_cons, List.length_cons,
      ← ih fun q hq => h01 q (List.mem_cons_of_mem a hq)]
    rcases h01 a (List.mem_cons_self a l) with hz | ho
    · simp [hz]
      omega
    · simp [ho]
      omega

/-- C2: for every box processed by the packer whose pixel count is
boxSize^2, a pixel receives index 1 exactly when its luminance is at least
the box mean luminance and index 0 exactly when it is below, and the light
count plus the dark count is boxSize^2. -/
theorem pack_partition (bi : BoxedImage) (b : Box) (i : Nat)
    (hi : i < bi.data.length) (hb : bi.data.getD i defaultBox = b)
    (hlen : b.data.length = bi.boxSize ^ 2) :
    (pack bi).data.getD i defaultQBox = packBox b ∧
    (∀ j : Nat, j < b.data.length →
      ((((packBox b).data.getD j defaultPkPixel).index = 1 ↔
          boxAverageLuminance b
            ≤ getLuminance ((b.data.getD j defaultPixel).color)) ∧
        (((packBox b).data.getD j defaultPkPixel).index = 0 ↔
          getLuminance ((b.data.getD j defaultPixel).color)
            < boxAverageLuminance b))) ∧
    ((packBox b).data.countP fun q => q.index == 1)
      + ((packBox b).data.countP fun q => q.index == 0)
      = bi.boxSize ^ 2 := by
  have hmaplen : (packBox b).data.length = b.data.length := by
    show (b.data.map _).length = _
    rw [List.length_map]
  refine ⟨?_, ?_, ?_⟩
  · show (bi.data.map packBox).getD i defaultQBox = packBox b
    rw [List.getD_eq_getElem _ _ (by rw [List.length_map]; exact hi),
      List.getElem_map, ← List.getD_eq_getElem _ defaultBox hi, hb]
  · intro j hj
    have hq : (packBox b).data.getD j defaultPkPixel =
        { x := (b.data.getD j defaultPixel).x
          y := (b.data.getD j defaultPixel).y
          index := if boxAverageLuminance b
              ≤ getLuminance ((b.data.getD j defaultPixel).color)
            then 1 else 0 } := by
      show (b.data.map fun p =>
        ({ x := p.x, y := p.y
           index := if boxAverageLuminance b ≤ getLuminance p.color
             then 1 else 0 } : PkPixel)).getD j defaultPkPixel = _
      rw [List.getD_eq_getElem _ _ (by rw [List.length_map]; exact hj),
        List.getElem_map, ← List.getD_eq_getElem _ defaultPixel hj]
    rw [hq]
    by_cases hA : boxAverageLuminance b
        ≤ getLuminance ((b.data.getD j defaultPixel).color)
    · simp only [if_pos hA]
      exact ⟨⟨fun _ => hA, fun _ => trivial⟩,
        ⟨fun h0 => absurd h0 (by decide), fun hlt => absurd hlt (not_lt.mpr hA)⟩⟩
    · simp only [if_neg hA]
      exact ⟨⟨fun h1 => absurd h1 (by decide), fun hle => absurd hle hA⟩,
        ⟨fun _ => not_le.mp hA, fun _ => trivial⟩⟩
  · rw [countP_indices _ ?_, hmaplen, hlen]
    intro q hq
    obtain ⟨p0, hp0, rfl⟩ := List.mem_map.mp hq
    by_cases hA : boxAverageLuminance b ≤ getLuminance p0.color
    · right
      simp [hA]
    · left
      simp [hA]

/-- Witness for C2 at a concrete one-pixel box. -/
theorem pack_partition_witness :
    (0 < c2Image.data.length ∧ c2Image.data.getD 0 defaultBox = c2Box ∧
      c2Box.data.length = c2Image.boxSize ^ 2) ∧
    ((pack c2Image).data.getD 0 defaultQBox = packBox c2Box ∧
    (∀ j : Nat, j < c2Box.data.length →
      ((((packBox c2Box).data.getD j defaultPkPixel).index = 1 ↔
          boxAverageLuminance c2Box
            ≤ getLuminance ((c2Box.data.getD j defaultPixel).color)) ∧
        (((packBox c2Box).data.getD j defaultPkPixel).index = 0 ↔
          getLuminance ((c2Box.data.getD j defaultPixel).color)
            < boxAverageLuminance c2Box))) ∧
    ((packBox c2Box).data.countP fun q => q.index == 1)
      + ((packBox c2Box).data.countP fun q => q.index == 0)
      = c2Image.boxSize ^ 2) :=
  ⟨⟨by decide, by decide, by decide⟩,
    pack_partition c2Image c2Box 0 (by decide) (by decide) (by decide)⟩

/-! ### Claim C4: empty partition -/

/-- C4 (source defect): on a box whose pixels all tie at the mean
luminance the dark partition is empty, and the packer computes its color
as floor(0 / 0), the JS NaN, modelled as none: no fallback color is
assigned, while the light partition gets the ordinary mean color. -/
theorem pack_empty_partition_nan :
    (packBox c4Box).dark = none ∧
    (packBox c4Box).light = some { r := 0, g := 0, b := 0 } := by
  have hlum : getLuminance { r := 0, g := 0, b := 0 } = 0 := by
    rw [getLuminance]
    norm_num
  have havg : boxAverageLuminance c4Box = 0 := by
    rw [boxAverageLuminance]
    simp [c4Box, hlum]
  constructor
  · show meanColor (c4Box.data.filter fun p =>
      !decide (boxAverageLuminance c4Box ≤ getLuminance p.color)) = none
    rw [havg]
    have hfilter : (c4Box.data.filter fun p =>
        !decide ((0 : ℝ) ≤ getLuminance p.color)) = [] := by
      simp [c4Box, List.filter, hlum]
    rw [hfilter]
    rfl
  · show meanColor (c4Box.data.filter fun p =>
      decide (boxAverageLuminance c4Box ≤ getLuminance p.color))
        = some { r := 0, g := 0, b := 0 }
    rw [havg]
    have hfilter : (c4Box.data.filter fun p =>
        decide ((0 : ℝ) ≤ getLuminance p.color)) = c4Box.data := by
      simp [c4Box, List.filter, hlum]
    rw [hfilter]
    rfl

/-! ### Claim C3: unpacker reconstruction -/

theorem getD_set_ne (l : List Nat) (i j a : Nat) (h : i ≠ j) :
    (l.set i a).getD j 0 = l.getD j 0 := by
  rw [List.getD_eq_getD_get?, List.getD_eq_getD_get?, List.get?_eq_getElem?,
    List.get?_eq_getElem?, List.getElem?_set_ne h]

theorem getD_set_self (l : List Nat) (i a : Nat) (h : i < l.length) :
    (l.set i a).getD i 0 = a := by
  rw [List.getD_eq_getElem _ _ (by rw [List.length_set]; exact h)]
  exact List.getElem_set_self _

theorem writePixel_length (width boxSize : Nat) (box : PackedBox)
    (d : List Nat) (px : PkPixel) :
    (writePixel width boxSize box d px).length = d.length := by
  simp [writePixel]

theorem foldl_writePixel_length (width boxSize : Nat) (box : PackedBox)
    (l : List PkPixel) (d : List Nat) :
    (l.foldl (writePixel width boxSize box) d).length = d.length := by
  induction l generalizing d with
  | nil => rfl
  | cons a l ih => rw [List.foldl_cons, ih, writePixel_length]

theorem foldl_boxes_length (width boxSize : Nat) (L : List PackedBox)
    (d : List Nat) :
    (L.foldl (fun acc box => box.data.foldl (writePixel width boxSize box) acc)
      d).length = d.length := by
  induction L generalizing d with
  | nil => rfl
  | cons b L ih => rw [List.foldl_cons, ih, foldl_writePixel_length]

theorem writePixel_getD_ne (width boxSize : Nat) (box : PackedBox)
    (d : List Nat) (px : PkPixel) (j : Nat)
    (h : j < cellIndex width boxSize box px
      ∨ cellIndex width boxSize box px + 3 < j) :
    (writePixel width boxSize box d px).getD j 0 = d.getD j 0 := by
  rw [cellIndex] at h
  simp only [writePixel]
  rw [getD_set_ne _ _ _ _ (by omega), getD_set_ne _ _ _ _ (by omega),
    getD_set_ne _ _ _ _ (by omega), getD_set_ne _ _ _ _ (by omega)]

theorem writePixel_getD_at (width boxSize : Nat) (box : PackedBox)
    (d : List Nat) (px : PkPixel)
    (hlen : cellIndex width boxSize box px + 3 < d.length) :
    (writePixel width boxSize box d px).getD
        (cellIndex width boxSize box px) 0
      = (if px.index == 0 then box.dark else box.light).r ∧
    (writePixel width boxSize box d px).getD
        (cellIndex width boxSize box px + 1) 0
      = (if px.index == 0 then box.dark else box.light).g ∧
    (writePixel width boxSize box d px).getD
        (cellIndex width boxSize box px + 2) 0
      = (if px.index == 0 then box.dark else box.light).b ∧
    (writePixel width boxSize box d px).getD
        (cellIndex width boxSize box px + 3) 0 = 255 := by
  simp only [cellIndex] at hlen ⊢
  simp only [writePixel]
  refine ⟨?_, ?_, ?_, ?_⟩
  · rw [getD_set_ne _ _ _ _ (by omega), getD_set_ne _ _ _ _ (by omega),
      getD_set_ne _ _ _ _ (by omega),
      getD_set_self _ _ _ (by omega)]
  · rw [getD_set_ne _ _ _ _ (by omega), getD_set_ne _ _ _ _ (by omega),
      getD_set_self _ _ _ (by rw [List.length_set]; omega)]
  · rw [getD_set_ne _ _ _ _ (by omega),
      getD_set_self _ _ _ (by rw [List.length_set, List.length_set]; omega)]
  · rw [getD_set_self _ _ _
      (by rw [List.length_set, List.length_set, List.length_set]; omega)]

theorem foldl_writePixel_frame (width boxSize : Nat) (box : PackedBox)
    (l : List PkPixel) (d : List Nat) (j : Nat)
    (h : ∀ q ∈ l, j < cellIndex width boxSize box q
      ∨ cellIndex width boxSize box q + 3 < j) :
    (l.foldl (writePixel width boxSize box) d).getD j 0 = d.getD j 0 := by
  induction l generalizing d with
  | nil => rfl
  | cons a l ih =>
    rw [List.foldl_cons, ih _ fun q hq => h q (List.mem_cons_of_mem a hq),
      writePixel_getD_ne _ _ _ _ _ _ (h a (List.mem_cons_self a l))]

theorem foldl_boxes_frame (width boxSize : Nat) (L : List PackedBox)
    (d : List Nat) (j : Nat)
    (h : ∀ b ∈ L, ∀ q ∈ b.data, j < cellIndex width boxSize b q
      ∨ cellIndex width boxSize b q + 3 < j) :
    (L.foldl (fun acc box => box.data.foldl (writePixel width boxSize box) acc)
        d).getD j 0 = d.getD j 0 := by
  induction L generalizing d with
  | nil => rfl
  | cons b L ih =>
    rw [List.foldl_cons, ih _ fun b2 hb2 => h b2 (List.mem_cons_of_mem b hb2),
      foldl_writePixel_frame _ _ _ _ _ _ (h b (List.mem_cons_self b L))]

theorem mul_add_cancel_left (a q r Q R : Nat) (ha : 0 < a)
    (h : a * q + r = a * Q + R) (hr : r < a) (hR : R < a) : q = Q ∧ r = R := by
  have h1 : (a * q + r) / a = q := by
    rw [Nat.mul_add_div ha, Nat.div_eq_of_lt hr]
    omega
  have h2 : (a * Q + R) / a = Q := by
    rw [Nat.mul_add_div ha, Nat.div_eq_of_lt hR]
    omega
  have h3 : (a * q + r) % a = r := by
    rw [Nat.mul_add_mod]
    exact Nat.mod_eq_of_lt hr
  have h4 : (a * Q + R) % a = R := by
    rw [Nat.mul_add_mod]
    exact Nat.mod_eq_of_lt hR
  constructor
  · rw [← h1, h, h2]
  · rw [← h3, h, h4]

theorem coord_lt (a c W B : Nat) (ha : a < W) (hc : c < B) :
    a * B + c < W * B := by
  calc a * B + c < a * B + B := by omega
    _ = (a + 1) * B := by ring
    _ ≤ W * B := Nat.mul_le_mul_right _ (by omega)

theorem cellIndex_lt (W H B : Nat) (box : PackedBox) (px : PkPixel)
    (hbx : box.x < W) (hby : box.y < H) (hpx : px.x < B) (hpy : px.y < B) :
    cellIndex (W * B) B box px + 3 < (W * B) * (H * B) * 4 := by
  rw [cellIndex]
  have h2 : box.y * B + px.y < H * B := coord_lt _ _ _ _ hby hpy
  have h3 : (W * B) * (box.y * B + px.y) + (box.x * B + px.x)
      < (W * B) * (H * B) := by
    calc (W * B) * (box.y * B + px.y) + (box.x * B + px.x)
        < (W * B) * (box.y * B + px.y) + (W * B) := by
          have := coord_lt box.x px.x W B hbx hpx
          omega
      _ = (W * B) * (box.y * B + px.y + 1) := by ring
      _ ≤ (W * B) * (H * B) := Nat.mul_le_mul_left _ (by omega)
  omega

theorem cellIndex_ne (W B : Nat) (b bb : PackedBox) (q qq : PkPixel)
    (hbx : b.x < W) (hbbx : bb.x < W)
    (hqx : q.x < B) (hqy : q.y < B) (hqqx : qq.x < B) (hqqy : qq.y < B)
    (hne : ¬(b.x = bb.x ∧ b.y = bb.y ∧ q.x = qq.x ∧ q.y = qq.y)) :
    cellIndex (W * B) B b q ≠ cellIndex (W * B) B bb qq := by
  intro heq
  rw [cellIndex, cellIndex] at heq
  have heq2 : (W * B) * (b.y * B + q.y) + (b.x * B + q.x)
      = (W * B) * (bb.y * B + qq.y) + (bb.x * B + qq.x) := by omega
  have hgx : b.x * B + q.x < W * B := coord_lt _ _ _ _ hbx hqx
  have hgx2 : bb.x * B + qq.x < W * B := coord_lt _ _ _ _ hbbx hqqx
  have hWB : 0 < W * B := by omega
  obtain ⟨hy, hx⟩ := mul_add_cancel_left (W * B) _ _ _ _ hWB heq2 hgx hgx2
  have hB : 0 < B := by omega
  obtain ⟨hbx2, hqx2⟩ := mul_add_cancel_left B b.x q.x bb.x qq.x hB
    (by rw [Nat.mul_comm B b.x, Nat.mul_comm B bb.x]; exact hx) hqx hqqx
  obtain ⟨hby2, hqy2⟩ := mul_add_cancel_left B b.y q.y bb.y qq.y hB
    (by rw [Nat.mul_comm B b.y, Nat.mul_comm B bb.y]; exact hy) hqy hqqy
  exact hne ⟨hbx2, hby2, hqx2, hqy2⟩

theorem cellIndex_window (W B : Nat) (b bb : PackedBox) (q qq : PkPixel)
    (hbx : b.x < W) (hbbx : bb.x < W)
    (hqx : q.x < B) (hqy : q.y < B) (hqqx : qq.x < B) (hqqy : qq.y < B)
    (hne : ¬(b.x = bb.x ∧ b.y = bb.y ∧ q.x = qq.x ∧ q.y = qq.y)) (j : Nat)
    (hj1 : cellIndex (W * B) B b q ≤ j)
    (hj2 : j ≤ cellIndex (W * B) B b q + 3) :
    j < cellIndex (W * B) B bb qq ∨ cellIndex (W * B) B bb qq + 3 < j := by
  have hne2 := cellIndex_ne W B b bb q qq hbx hbbx hqx hqy hqqx hqqy hne
  simp only [cellIndex] at hne2 hj1 hj2 ⊢
  omega

theorem foldl_writePixel_at (W H B : Nat) (box : PackedBox)
    (l : List PkPixel) (d : List Nat) (q : PkPixel) (hq : q ∈ l)
    (hnodup : (l.map fun r => (r.x, r.y)).Nodup)
    (hbounds : ∀ r ∈ l, r.x < B ∧ r.y < B)
    (hbx : box.x < W) (hby : box.y < H)
    (hdlen : d.length = (W * B) * (H * B) * 4) :
    (l.foldl (writePixel (W * B) B box) d).getD
        (cellIndex (W * B) B box q) 0
      = (if q.index == 0 then box.dark else box.light).r ∧
    (l.foldl (writePixel (W * B) B box) d).getD
        (cellIndex (W * B) B box q + 1) 0
      = (if q.index == 0 then box.dark else box.light).g ∧
    (l.foldl (writePixel (W * B) B box) d).getD
        (cellIndex (W * B) B box q + 2) 0
      = (if q.index == 0 then box.dark else box.light).b ∧
    (l.foldl (writePixel (W * B) B box) d).getD
        (cellIndex (W * B) B box q + 3) 0 = 255 := by
  obtain ⟨l1, l2, rfl⟩ := List.append_of_mem hq
  obtain ⟨hqx, hqy⟩ := hbounds q (by simp)
  rw [List.foldl_append, List.foldl_cons]
  have hlen1 : (l1.foldl (writePixel (W * B) B box) d).length = d.length :=
    foldl_writePixel_length _ _ _ _ _
  have hcell := cellIndex_lt W H B box q hbx hby hqx hqy
  rw [List.map_append, List.map_cons] at hnodup
  have hnotmem : (q.x, q.y) ∉ l2.map fun r => (r.x, r.y) :=
    (List.nodup_cons.mp hnodup.of_append_right).1
  have hframe : ∀ r ∈ l2, ∀ jj : Nat, cellIndex (W * B) B box q ≤ jj →
      jj ≤ cellIndex (W * B) B box q + 3 →
      jj < cellIndex (W * B) B box r ∨ cellIndex (W * B) B box r + 3 < jj := by
    intro r hr jj h1 h2
    refine cellIndex_window W B box box q r hbx hbx hqx hqy
      (hbounds r (by simp [hr])).1 (hbounds r (by simp [hr])).2 ?_ jj h1 h2
    rintro ⟨_, _, hx, hy⟩
    exact hnotmem (hx ▸ hy ▸ List.mem_map_of_mem _ hr)
  have hat := writePixel_getD_at (W * B) B box
    (l1.foldl (writePixel (W * B) B box) d) q (by rw [hlen1, hdlen]; omega)
  refine ⟨?_, ?_, ?_, ?_⟩
  · rw [foldl_writePixel_frame _ _ _ _ _ _
      fun r hr => hframe r hr _ le_rfl (by omega)]
    exact hat.1
  · rw [foldl_writePixel_frame _ _ _ _ _ _
      fun r hr => hframe r hr _ (by omega) (by omega)]
    exact hat.2.1
  · rw [foldl_writePixel_frame _ _ _ _ _ _
      fun r hr => hframe r hr _ (by omega) (by omega)]
    exact hat.2.2.1
  · rw [foldl_writePixel_frame _ _ _ _ _ _
      fun r hr => hframe r hr _ (by omega) (by omega)]
    exact hat.2.2.2

/-- C3: the unpacker returns a raster of size width by height tiles scaled
by boxSize, every byte not written by a box keeps its starting value of 0
with alpha 255, and every box pixel deposits the dark color when its index
is 0 and the light color otherwise, with alpha 255, at the absolute
position determined only by the own coordinates of its box. -/
theorem unpack_spec (p : PackedImage)
    (hbx : ∀ b ∈ p.data, b.x < p.size.width ∧ b.y < p.size.height)
    (hpx : ∀ b ∈ p.data, ∀ q ∈ b.data, q.x < p.boxSize ∧ q.y < p.boxSize)
    (hnodup : (p.data.map fun b => (b.x, b.y)).Nodup)
    (hpxnodup : ∀ b ∈ p.data, (b.data.map fun q => (q.x, q.y)).Nodup) :
    (unpack p).width = p.size.width * p.boxSize ∧
    (unpack p).height = p.size.height * p.boxSize ∧
    (unpack p).data.length
      = p.size.width * p.boxSize * (p.size.height * p.boxSize) * 4 ∧
    (∀ j : Nat, j < (unpack p).data.length → ¬Touched p j →
      (unpack p).data.getD j 0 = if j % 4 == 3 then 255 else 0) ∧
    ∀ b ∈ p.data, ∀ q ∈ b.data,
      (unpack p).data.getD
          (cellIndex (p.size.width * p.boxSize) p.boxSize b q) 0
        = (if q.index == 0 then b.dark else b.light).r ∧
      (unpack p).data.getD
          (cellIndex (p.size.width * p.boxSize) p.boxSize b q + 1) 0
        = (if q.index == 0 then b.dark else b.light).g ∧
      (unpack p).data.getD
          (cellIndex (p.size.width * p.boxSize) p.boxSize b q + 2) 0
        = (if q.index == 0 then b.dark else b.light).b ∧
      (unpack p).data.getD
          (cellIndex (p.size.width * p.boxSize) p.boxSize b q + 3) 0
        = 255 := by
  simp only [unpack]
  refine ⟨trivial, trivial, ?_, ?_, ?_⟩
  · rw [foldl_boxes_length, List.length_map, List.length_range]
  · intro j hj hnt
    rw [foldl_boxes_length, List.length_map, List.length_range] at hj
    rw [foldl_boxes_frame]
    · rw [List.getD_eq_getElem _ _
        (by rw [List.length_map, List.length_range]; exact hj),
        List.getElem_map, List.getElem_range]
    · intro b hb q hq
      by_contra hcon
      push_neg at hcon
      exact hnt ⟨b, hb, q, hq, hcon.1, hcon.2⟩
  · intro b hb q hq
    obtain ⟨L1, L2, hsplit⟩ := List.append_of_mem hb
    obtain ⟨hbxb, hbyb⟩ := hbx b hb
    rw [hsplit, List.map_append, List.map_cons] at hnodup
    have hnotmem : (b.x, b.y) ∉ L2.map fun r => (r.x, r.y) :=
      (List.nodup_cons.mp hnodup.of_append_right).1
    have hd1len : (L1.foldl (fun acc box =>
        box.data.foldl (writePixel (p.size.width * p.boxSize) p.boxSize box) acc)
      ((List.range (p.size.width * p.boxSize * (p.size.height * p.boxSize) * 4)).map
        fun i => if i % 4 == 3 then 255 else 0)).length
        = p.size.width * p.boxSize * (p.size.height * p.boxSize) * 4 := by
      rw [foldl_boxes_length, List.length_map, List.length_range]
    have hat := foldl_writePixel_at p.size.width p.size.height p.boxSize b
      b.data _ q hq (hpxnodup b hb) (hpx b hb) hbxb hbyb hd1len
    have hframe : ∀ b2 ∈ L2, ∀ q2 ∈ b2.data, ∀ jj : Nat,
        cellIndex (p.size.width * p.boxSize) p.boxSize b q ≤ jj →
        jj ≤ cellIndex (p.size.width * p.boxSize) p.boxSize b q + 3 →
        jj < cellIndex (p.size.width * p.boxSize) p.boxSize b2 q2 ∨
        cellIndex (p.size.width * p.boxSize) p.boxSize b2 q2 + 3 < jj := by
      intro b2 hb2 q2 hq2 jj h1 h2
      have hb2mem : b2 ∈ p.data := by
        rw [hsplit]
        simp [hb2]
      refine cellIndex_window p.size.width p.boxSize b b2 q q2 hbxb
        (hbx b2 hb2mem).1 (hpx b hb q hq).1 (hpx b hb q hq).2
        (hpx b2 hb2mem q2 hq2).1 (hpx b2 hb2mem q2 hq2).2 ?_ jj h1 h2
      rintro ⟨h1x, h1y, _, _⟩
      exact hnotmem (h1x ▸ h1y ▸ List.mem_map_of_mem _ hb2)
    rw [hsplit, List.foldl_append, List.foldl_cons]
    refine ⟨?_, ?_, ?_, ?_⟩
    · rw [foldl_boxes_frame _ _ _ _ _
        fun b2 hb2 q2 hq2 => hframe b2 hb2 q2 hq2 _ le_rfl (by omega)]
      exact hat.1
    · rw [foldl_boxes_frame _ _ _ _ _
        fun b2 hb2 q2 hq2 => hframe b2 hb2 q2 hq2 _ (by omega) (by omega)]
      exact hat.2.1
    · rw [foldl_boxes_frame _ _ _ _ _
        fun b2 hb2 q2 hq2 => hframe b2 hb2 q2 hq2 _ (by omega) (by omega)]
      exact hat.2.2.1
    · rw [foldl_boxes_frame _ _ _ _ _
        fun b2 hb2 q2 hq2 => hframe b2 hb2 q2 hq2 _ (by omega) (by omega)]
      exact hat.2.2.2

/-- Witness for C3 at a concrete two-box image in non-grid order. -/
theorem unpack_spec_witness :
    ((∀ b ∈ c3Image.data, b.x < c3Image.size.width ∧ b.y < c3Image.size.height) ∧
      (∀ b ∈ c3Image.data, ∀ q ∈ b.data,
        q.x < c3Image.boxSize ∧ q.y < c3Image.boxSize) ∧
      (c3Image.data.map fun b => (b.x, b.y)).Nodup ∧
      ∀ b ∈ c3Image.data, (b.data.map fun q => (q.x, q.y)).Nodup) ∧
    ((unpack c3Image).width = c3Image.size.width * c3Image.boxSize ∧
    (unpack c3Image).height = c3Image.size.height * c3Image.boxSize ∧
    (unpack c3Image).data.length
      = c3Image.size.width * c3Image.boxSize
        * (c3Image.size.height * c3Image.boxSize) * 4 ∧
    (∀ j : Nat, j < (unpack c3Image).data.length → ¬Touched c3Image j →
      (unpack c3Image).data.getD j 0 = if j % 4 == 3 then 255 else 0) ∧
    ∀ b ∈ c3Image.data, ∀ q ∈ b.data,
      (unpack c3Image).data.getD
          (cellIndex (c3Image.size.width * c3Image.boxSize) c3Image.boxSize b q) 0
        = (if q.index == 0 then b.dark else b.light).r ∧
      (unpack c3Image).data.getD
          (cellIndex (c3Image.size.width * c3Image.boxSize) c3Image.boxSize b q
            + 1) 0
        = (if q.index == 0 then b.dark else b.light).g ∧
      (unpack c3Image).data.getD
          (cellIndex (c3Image.size.width * c3Image.boxSize) c3Image.boxSize b q
            + 2) 0
        = (if q.index == 0 then b.dark else b.light).b ∧
      (unpack c3Image).data.getD
          (cellIndex (c3Image.size.width * c3Image.boxSize) c3Image.boxSize b q
            + 3) 0
        = 255) :=
  ⟨⟨by decide, by decide, by decide, by decide⟩,
    unpack_spec c3Image (by decide) (by decide) (by decide) (by decide)⟩
end Qimg
